import Mathlib

/-!
# go-oiio: pixel marshalling between Go float images and the native OpenImageIO buffer

Shallow embedding of `oiio/oiio.go` (and of its older sibling `pkg/oiio/oiio.go`).

* Go strings are modelled as `List Char`.
* Go `int` is modelled by `Int`, wrapped to 64 bits where the code multiplies sizes.
* A panic of the Go runtime (index or slice bound out of range, negative `make`)
  is the value `none`.
* The floating-point primitives of Go and cgo (`float64(x)`, `C.float(x)`,
  `math.Min`, `math.Max`, `math.Pow`, `/`) are the fields of `FloatOps`; the functions of
  the package are embedded over an arbitrary `FloatOps`, and `ieeeConv` gives the
  IEEE-754 conversions on bit patterns.
-/

namespace Oiio

/-! ## Format classifier -/

/-- The test `os.IsPathSeparator` of a Unix build. -/
def isPathSeparator (c : Char) : Bool := c == '/'

/-- Loop of `filepath.Ext`: `rev` holds `path[0..i]` reversed (so its head is `path[i]`),
`acc` is `path[i+1:]`. -/
def extLoop : List Char → List Char → List Char
  | [], _ => []
  | c :: rest, acc =>
    if isPathSeparator c then []
    else if c = '.' then c :: acc
    else extLoop rest (c :: acc)

/-- Go `filepath.Ext`: scan backwards from the end of the path, stop at a path separator,
return the suffix that starts at the first dot met. -/
def Ext (path : List Char) : List Char := extLoop path.reverse []

/-- Go `strings.ToLower`: an all-ASCII string has `A`..`Z` shifted to `a`..`z`; any
other string is mapped rune by rune through `unicode.ToLower`, here `unicodeToLower`. -/
def ToLower (unicodeToLower : Char → Char) (s : List Char) : List Char :=
  if s.all (fun c => decide (c.toNat < 128)) then s.map Char.toLower
  else s.map unicodeToLower

/-- The four extensions of the `switch` in `isHDR`. -/
def hdrExtensions : List (List Char) :=
  [".hdr".toList, ".exr".toList, ".pfm".toList, ".dpx".toList]

/-- Go `isHDR`. -/
def isHDR (unicodeToLower : Char → Char) (filename : List Char) : Bool :=
  let ext := ToLower unicodeToLower (Ext filename)
  if ext = ".hdr".toList ∨ ext = ".exr".toList ∨ ext = ".pfm".toList ∨ ext = ".dpx".toList
  then true else false

/-- The last element of a path, in the words of the specification: what follows the
last path separator (the whole path when there is none). -/
def lastElement (path : List Char) : List Char :=
  (path.reverse.takeWhile (fun c => !isPathSeparator c)).reverse

/-- The suffix of `s` from its last dot, empty when `s` has no dot. -/
def suffixFromLastDot (s : List Char) : List Char :=
  if '.' ∈ s then '.' :: (s.reverse.takeWhile (fun c => c != '.')).reverse else []

/-- The extension of a path in the words of the specification: the suffix from the last
dot of the last path element. -/
def extensionSpec (path : List Char) : List Char := suffixFromLastDot (lastElement path)

/-! ## Go integers and floating-point primitives -/

/-- Two's-complement wrap of a Go `int` (64 bits). -/
def wrapInt64 (n : Int) : Int := (n + 2 ^ 63) % 2 ^ 64 - 2 ^ 63

/-- Two's-complement wrap of a `C.int` (32 bits), the conversion `C.int(n)`. -/
def wrapInt32 (n : Int) : Int := (n + 2 ^ 31) % 2 ^ 32 - 2 ^ 31

/-- Go `a * b` on `int`. -/
def mulInt (a b : Int) : Int := wrapInt64 (a * b)

/-- Go `a - b` on `int`. -/
def subInt (a b : Int) : Int := wrapInt64 (a - b)

/-- The floating-point primitives the package uses: `F64` is Go `float64`, `F32` is
`C.float`. -/
structure FloatOps (F64 F32 : Type) where
  /-- The conversion `float64(x)` of a `C.float`. -/
  toGo : F32 → F64
  /-- The conversion `C.float(x)` of a `float64`. -/
  toC : F64 → F32
  /-- The constant `0.0`, also the zero value `make` fills a slice with. -/
  zero : F64
  /-- The constant `1.0`. -/
  one : F64
  /-- The constant `2.2`. -/
  gamma : F64
  /-- The constant `65535.0`. -/
  c65535 : F64
  /-- The conversion `float64(r)` of a `uint32`. -/
  ofUint32 : Nat → F64
  /-- The division `x / y` on `float64`. -/
  div : F64 → F64 → F64
  /-- Go `math.Max`. -/
  max : F64 → F64 → F64
  /-- Go `math.Min`. -/
  min : F64 → F64 → F64
  /-- Go `math.Pow`. -/
  pow : F64 → F64 → F64

/-- Go `data[i] = v` on a slice: a panic when `i` is out of range. -/
def setAt {α : Type} (data : List α) (i : Int) (v : α) : Option (List α) :=
  if 0 ≤ i ∧ i < data.length then some (data.set i.toNat v) else none

/-- Go `data[i]` on a slice: a panic when `i` is out of range. -/
def getAt {α : Type} (data : List α) (i : Int) : Option α :=
  if 0 ≤ i then data[i.toNat]? else none

/-- Go `make([]float64, n)`: `n` zero values, a panic when `n` is negative. -/
def make {α : Type} (zero : α) (n : Int) : Option (List α) :=
  if 0 ≤ n then some (List.replicate n.toNat zero) else none

/-- Length of the array type `[1 << 30]C.float` the package casts native memory to. -/
def arrayLen : Int := 2 ^ 30

/-- The slice expression `(*[1 << 30]C.float)(ptr)[:n:n]` over the native memory `mem`
at `ptr`: a panic unless `0 ≤ n ≤ 1 << 30`; a slice longer than the memory behind the
pointer is a fault as well. -/
def cSlice {α : Type} (mem : List α) (n : Int) : Option (List α) :=
  if 0 ≤ n ∧ n ≤ arrayLen ∧ n ≤ mem.length then some (mem.take n.toNat) else none

/-- The values `lo, lo+1, ..., hi-1` a loop `for v := lo; v < hi; v++` runs through. -/
def intRange (lo hi : Int) : List Int :=
  (List.range (hi - lo).toNat).map (fun (k : Nat) => lo + (k : Int))

/-! ## Data model -/

/-- Go `image.Point`. -/
structure Point where
  X : Int
  Y : Int
deriving DecidableEq, Repr

/-- Go `image.Rectangle`. -/
structure Rectangle where
  Min : Point
  Max : Point
deriving DecidableEq, Repr

/-- Go `Rectangle.Dx`. -/
def Rectangle.Dx (r : Rectangle) : Int := subInt r.Max.X r.Min.X

/-- Go `Rectangle.Dy`. -/
def Rectangle.Dy (r : Rectangle) : Int := subInt r.Max.Y r.Min.Y

/-- The colour `colour.FloatNRGBA` returned by the pixel accessor of a float image. -/
structure FloatColour (F64 : Type) where
  R : F64
  G : F64
  B : F64
  A : F64
deriving DecidableEq, Repr

/-- The struct `floatimage.FloatNRGBA`, with the three fields `ReadImage` fills. -/
structure FloatNRGBA (F64 : Type) where
  Pix : List F64
  Stride : Int
  Rect : Rectangle
deriving DecidableEq, Repr

/-- The C struct `Image` of `oiio_wrapper.h`: `data` is the memory behind the `float*`. -/
structure CImage (F32 : Type) where
  data : List F32
  width : Int
  height : Int
  channels : Int
deriving DecidableEq, Repr

/-- Modelled from the spec: `FloatNRGBA.PixOffset` of the float image container, which is
not among the sources; pixel `(x, y)` of the rectangle starts at
`(y - originY) * Stride + (x - originX) * 4` of the row-major sample sequence. -/
def FloatNRGBA.PixOffset {F64 : Type} (p : FloatNRGBA F64) (x y : Int) : Int :=
  (y - p.Rect.Min.Y) * p.Stride + (x - p.Rect.Min.X) * 4

/-- Modelled from the spec: the per-pixel accessor `FloatNRGBAAt` of the float image
container, which is not among the sources; it returns the four samples (R, G, B, A) that
start at the pixel's offset, and reading outside `Pix` is a panic. -/
def FloatNRGBA.FloatNRGBAAt {F64 : Type} (p : FloatNRGBA F64) (x y : Int) :
    Option (FloatColour F64) := do
  let i := p.PixOffset x y
  let r ← getAt p.Pix i
  let g ← getAt p.Pix (i + 1)
  let b ← getAt p.Pix (i + 2)
  let a ← getAt p.Pix (i + 3)
  pure ⟨r, g, b, a⟩

/-- Modelled from the spec: the constructor `floatimage.NewFloatNRGBA` used by
`pkg/oiio`, which is not among the sources; the image has the given rectangle and
samples, four channels per pixel, row stride `4 * width`. -/
def NewFloatNRGBA {F64 : Type} (r : Rectangle) (pix : List F64) : FloatNRGBA F64 :=
  ⟨pix, mulInt 4 r.Dx, r⟩

/-- A Go `image.Image` as `toCImage` tells them apart in its type switch: a
`*floatimage.FloatNRGBA`, or any other image, given by its `Bounds()` and by the result
`(r, g, b, a)` of `At(x, y).RGBA()`. -/
inductive Image (F64 : Type) where
  | float (img : FloatNRGBA F64)
  | other (bounds : Rectangle) (rgbaAt : Int → Int → Nat × Nat × Nat × Nat)

/-- The method `Bounds()`; for the float image it is the field `Rect`. -/
def Image.Bounds {F64 : Type} : Image F64 → Rectangle
  | .float img => img.Rect
  | .other bounds _ => bounds

/-! ## Pixel unmarshaller -/

/-- Go `toRGBASlice` (the same text in `oiio` and in `pkg/oiio`): allocate
`width*height*numChannels` zeroed samples, then copy `cData[i]` to `data[i]` for
every `i < len(cData)`. -/
def toRGBASlice {F64 F32 : Type} (ops : FloatOps F64 F32) (cData : List F32)
    (width height numChannels : Int) : Option (List F64) := do
  let data ← make ops.zero (mulInt (mulInt width height) numChannels)
  (List.range cData.length).foldlM
    (fun data (i : Nat) => do
      let v ← getAt cData (i : Int)
      setAt data (i : Int) (ops.toGo v))
    data

/-- Body of the loop of `toRGBSlice` at index `i`: the state is `(j, data)`. -/
def rgbStep {F64 F32 : Type} (ops : FloatOps F64 F32) (cData : List F32)
    (st : Int × List F64) (i : Int) : Option (Int × List F64) := do
  let (j, data) := st
  let v ← getAt cData j
  let data ← setAt data i (ops.toGo v)
  let j := j + 1
  let v ← getAt cData j
  let data ← setAt data (i + 1) (ops.toGo v)
  let j := j + 1
  let v ← getAt cData j
  let data ← setAt data (i + 2) (ops.toGo v)
  let j := j + 1
  let data ← setAt data (i + 3) ops.one
  pure (j, data)

/-- The values `0, 4, 8, ...` below `n` that `for i := 0; i < n; i += 4` runs through. -/
def strideFour (n : Nat) : List Int :=
  (List.range ((n + 3) / 4)).map (fun k => ((4 * k : Nat) : Int))

/-- Go `toRGBSlice` (the same text in `oiio` and in `pkg/oiio`): allocate
`width*height*4` zeroed samples, then fill them four at a time from three source
samples and the constant `1.0`. -/
def toRGBSlice {F64 F32 : Type} (ops : FloatOps F64 F32) (cData : List F32)
    (width height : Int) : Option (List F64) := do
  let data ← make ops.zero (mulInt (mulInt width height) 4)
  let st ← (strideFour data.length).foldlM (rgbStep ops cData) (0, data)
  pure st.2

/-- Result of the native `read_image`: a decoded image, or a failure with the optional
message of the library. -/
inductive Decoded (F32 : Type) where
  | ok (cImage : CImage F32)
  | failed (errorMsg : Option String)

/-- The text of `fmt.Errorf("unsupported number of channels: %d", n)`. -/
def unsupportedChannels (n : Int) : String :=
  "unsupported number of channels: " ++ toString n

/-- Go `ReadImage` of `oiio/oiio.go`, after the call of the native `read_image`. The result
is the pair (image, error) of the Go function; `none` is a panic. -/
def ReadImage {F64 F32 : Type} (ops : FloatOps F64 F32) (decoded : Decoded F32) :
    Option (Option (FloatNRGBA F64) × Option String) :=
  match decoded with
  | .failed (some err) => some (none, some ("failed to read image: " ++ err))
  | .failed none => some (none, some "failed to read image")
  | .ok cImage => do
    let width := cImage.width
    let height := cImage.height
    let numChannels := cImage.channels
    let cData ← cSlice cImage.data (mulInt (mulInt width height) numChannels)
    if cImage.channels = 3 then do
      let data ← toRGBSlice ops cData width height
      pure (some ⟨data, mulInt width numChannels, ⟨⟨0, 0⟩, ⟨width, height⟩⟩⟩, none)
    else if cImage.channels = 4 then do
      let data ← toRGBASlice ops cData width height numChannels
      pure (some ⟨data, mulInt width numChannels, ⟨⟨0, 0⟩, ⟨width, height⟩⟩⟩, none)
    else
      pure (none, some (unsupportedChannels cImage.channels))

/-- Go `ReadImage` of `pkg/oiio/oiio.go`, after the call of the native `read_image`: the
image is built by `NewFloatNRGBA`. -/
def Pkg.ReadImage {F64 F32 : Type} (ops : FloatOps F64 F32) (decoded : Decoded F32) :
    Option (Option (FloatNRGBA F64) × Option String) :=
  match decoded with
  | .failed _ => some (none, some "failed to read image")
  | .ok cImage => do
    let width := cImage.width
    let height := cImage.height
    let numChannels := cImage.channels
    let cData ← cSlice cImage.data (mulInt (mulInt width height) numChannels)
    if cImage.channels = 3 then do
      let data ← toRGBSlice ops cData width height
      pure (some (NewFloatNRGBA ⟨⟨0, 0⟩, ⟨width, height⟩⟩ data), none)
    else if cImage.channels = 4 then do
      let data ← toRGBASlice ops cData width height numChannels
      pure (some (NewFloatNRGBA ⟨⟨0, 0⟩, ⟨width, height⟩⟩ data), none)
    else
      pure (none, some (unsupportedChannels cImage.channels))

/-! ## Pixel marshaller -/

/-- The index `idx := ((y-bounds.Min.Y)*width + (x - bounds.Min.X)) * numChannels` of
`toCImage`, with `numChannels = 4`. -/
def pixelIndex (bounds : Rectangle) (width : Int) (x y : Int) : Int :=
  ((y - bounds.Min.Y) * width + (x - bounds.Min.X)) * 4

/-- Store the four samples `v0..v3` at `data[idx] .. data[idx+3]`, in this order. -/
def store4 {F32 : Type} (data : List F32) (idx : Int) (v0 v1 v2 v3 : F32) :
    Option (List F32) := do
  let data ← setAt data idx v0
  let data ← setAt data (idx + 1) v1
  let data ← setAt data (idx + 2) v2
  setAt data (idx + 3) v3

/-- The expression `math.Min(1.0, math.Max(0.0, v))` of `toCImage`. -/
def clamp01 {F64 F32 : Type} (ops : FloatOps F64 F32) (v : F64) : F64 :=
  ops.min ops.one (ops.max ops.zero v)

/-- The expression `math.Pow(math.Min(1.0, math.Max(0.0, v)), 1.0/gamma)` of `toCImage`. -/
def gammaEncode {F64 F32 : Type} (ops : FloatOps F64 F32) (v : F64) : F64 :=
  ops.pow (clamp01 ops v) (ops.div ops.one ops.gamma)

/-- Body of the inner loop of `toCImage` for a `*floatimage.FloatNRGBA`. -/
def floatPixel {F64 F32 : Type} (ops : FloatOps F64 F32) (img : FloatNRGBA F64)
    (bounds : Rectangle) (width : Int) (isHDRFormat : Bool) (y : Int)
    (data : List F32) (x : Int) : Option (List F32) := do
  let c ← img.FloatNRGBAAt x y
  let idx := pixelIndex bounds width x y
  if isHDRFormat then
    store4 data idx (ops.toC c.R) (ops.toC c.G) (ops.toC c.B) (ops.toC c.A)
  else
    store4 data idx (ops.toC (gammaEncode ops c.R)) (ops.toC (gammaEncode ops c.G))
      (ops.toC (gammaEncode ops c.B)) (ops.toC (clamp01 ops c.A))

/-- The expression `C.float(float64(r) / 65535.0)` of `toCImage`. -/
def normalize16 {F64 F32 : Type} (ops : FloatOps F64 F32) (r : Nat) : F32 :=
  ops.toC (ops.div (ops.ofUint32 r) ops.c65535)

/-- Body of the inner loop of `toCImage` for any other image. -/
def otherPixel {F64 F32 : Type} (ops : FloatOps F64 F32)
    (rgbaAt : Int → Int → Nat × Nat × Nat × Nat)
    (bounds : Rectangle) (width : Int) (y : Int)
    (data : List F32) (x : Int) : Option (List F32) :=
  let (r, g, b, a) := rgbaAt x y
  let idx := pixelIndex bounds width x y
  store4 data idx (normalize16 ops r) (normalize16 ops g) (normalize16 ops b)
    (normalize16 ops a)

/-- The two nested loops of `toCImage` over the rows and columns of `bounds`. -/
def pixelLoops {F32 : Type} (bounds : Rectangle)
    (body : Int → List F32 → Int → Option (List F32)) (data : List F32) :
    Option (List F32) :=
  (intRange bounds.Min.Y bounds.Max.Y).foldlM
    (fun data y => (intRange bounds.Min.X bounds.Max.X).foldlM (body y) data)
    data

/-- Go `toCImage`. `garbage i` is what the fresh `C.malloc` memory holds at sample `i`
before anything is written. `none` is a panic. -/
def toCImage {F64 F32 : Type} (ops : FloatOps F64 F32) (garbage : Nat → F32)
    (image : Image F64) (isHDRFormat : Bool) : Option (CImage F32) := do
  let bounds := image.Bounds
  let width := bounds.Dx
  let height := bounds.Dy
  let numChannels : Int := 4
  let n := mulInt (mulInt width height) numChannels
  let data ← cSlice ((List.range n.toNat).map garbage) n
  let data ←
    match image with
    | .float img => pixelLoops bounds (floatPixel ops img bounds width isHDRFormat) data
    | .other _ rgbaAt => pixelLoops bounds (otherPixel ops rgbaAt bounds width) data
  pure ⟨data, wrapInt32 width, wrapInt32 height, wrapInt32 numChannels⟩

/-! ## Loop invariant of the marshaller -/

/-- The first `p` pixels of the buffer, in row-major order over a rectangle `W` wide with
origin `(ox, oy)`, hold the samples `v0 .. v3` of their pixel. -/
def Written {α : Type} (W : Nat) (ox oy : Int) (v0 v1 v2 v3 : Int → Int → α)
    (N p : Nat) (data : List α) : Prop :=
  data.length = N ∧ ∀ q, q < p →
    data[4 * q]? = some (v0 (ox + ((q % W : Nat) : Int)) (oy + ((q / W : Nat) : Int))) ∧
    data[4 * q + 1]? = some (v1 (ox + ((q % W : Nat) : Int)) (oy + ((q / W : Nat) : Int))) ∧
    data[4 * q + 2]? = some (v2 (ox + ((q % W : Nat) : Int)) (oy + ((q / W : Nat) : Int))) ∧
    data[4 * q + 3]? = some (v3 (ox + ((q % W : Nat) : Int)) (oy + ((q / W : Nat) : Int)))

/-! ## IEEE-754 bit patterns

The concrete meaning of the floating-point primitives on amd64: a `float64` is the
natural number below `2^64` of its bit pattern, a `C.float` the one below `2^32`. -/

/-- A binary interchange format: `ebits` exponent bits, `mbits` fraction bits. -/
structure Fmt where
  ebits : Nat
  mbits : Nat
deriving DecidableEq, Repr

/-- IEEE-754 binary32, the format of `C.float`. -/
def binary32 : Fmt := ⟨8, 23⟩

/-- IEEE-754 binary64, the format of `float64`. -/
def binary64 : Fmt := ⟨11, 52⟩

/-- Exponent bias. -/
def Fmt.bias (f : Fmt) : Nat := 2 ^ (f.ebits - 1) - 1

/-- The all-ones exponent field of infinities and NaNs. -/
def Fmt.expMax (f : Fmt) : Nat := 2 ^ f.ebits - 1

/-- Sign bit of a bit pattern. -/
def Fmt.sign (f : Fmt) (b : Nat) : Nat := b / 2 ^ (f.ebits + f.mbits) % 2

/-- Exponent field of a bit pattern. -/
def Fmt.expField (f : Fmt) (b : Nat) : Nat := b / 2 ^ f.mbits % 2 ^ f.ebits

/-- Fraction field of a bit pattern. -/
def Fmt.frac (f : Fmt) (b : Nat) : Nat := b % 2 ^ f.mbits

/-- The pattern is a NaN. -/
def Fmt.isNaN (f : Fmt) (b : Nat) : Bool := f.expField b == f.expMax && f.frac b != 0

/-- The pattern is an infinity. -/
def Fmt.isInf (f : Fmt) (b : Nat) : Bool := f.expField b == f.expMax && f.frac b == 0

/-- The zero of sign `s`. -/
def Fmt.zero (f : Fmt) (s : Nat) : Nat := s * 2 ^ (f.ebits + f.mbits)

/-- The infinity of sign `s`. -/
def Fmt.inf (f : Fmt) (s : Nat) : Nat := f.zero s + f.expMax * 2 ^ f.mbits

/-- The pattern of a NaN with its quiet bit set. -/
def Fmt.quiet (f : Fmt) (b : Nat) : Nat :=
  if b / 2 ^ (f.mbits - 1) % 2 = 1 then b else b + 2 ^ (f.mbits - 1)

/-- Integer significand of a finite pattern: its value is `sig * 2 ^ exp`. -/
def Fmt.sig (f : Fmt) (b : Nat) : Nat :=
  if f.expField b = 0 then f.frac b else 2 ^ f.mbits + f.frac b

/-- Exponent of the last place of a finite pattern. -/
def Fmt.exp (f : Fmt) (b : Nat) : Int :=
  (Nat.max (f.expField b) 1 : Int) - (f.bias : Int) - (f.mbits : Int)

/-- Number of binary digits of `n`; `fuel` bounds the recursion and `n + 1` is enough. -/
def bitLength : Nat → Nat → Nat
  | 0, _ => 0
  | fuel + 1, n => if n = 0 then 0 else bitLength fuel (n / 2) + 1

/-- Quotient `a / b` rounded to the nearest integer, ties to even. -/
def divNearestEven (a b : Nat) : Nat :=
  let q := a / b
  let r := a % b
  if 2 * r > b ∨ (2 * r = b ∧ q % 2 = 1) then q + 1 else q

/-- The pattern of sign `s` nearest to `num / den * 2 ^ e` (for `num, den > 0`), ties to
even, with gradual underflow and overflow to infinity. -/
def Fmt.round (f : Fmt) (s : Nat) (num den : Nat) (e : Int) : Nat :=
  let n := if 0 ≤ e then num * 2 ^ e.toNat else num
  let d := if 0 ≤ e then den else den * 2 ^ (-e).toNat
  -- `l - 1 ≤ ⌊log₂ (n / d)⌋ ≤ l`
  let l : Int := (bitLength (n + 1) n : Int) - (bitLength (d + 1) d : Int)
  let big : Bool := if 0 ≤ l then decide (d * 2 ^ l.toNat ≤ n) else decide (d ≤ n * 2 ^ (-l).toNat)
  let lg : Int := if big then l else l - 1
  let emin : Int := 1 - (f.bias : Int)
  let top : Int := if emin ≤ lg then lg else emin
  let q : Int := top - (f.mbits : Int)
  let m := if 0 ≤ q then divNearestEven n (d * 2 ^ q.toNat)
    else divNearestEven (n * 2 ^ (-q).toNat) d
  let bits := (top + (f.bias : Int) - 1).toNat * 2 ^ f.mbits + m
  if f.expMax * 2 ^ f.mbits ≤ bits then f.inf s else f.zero s + bits

/-- Conversion of a bit pattern of format `src` to format `dst`, rounding to nearest. -/
def convert (src dst : Fmt) (b : Nat) : Nat :=
  let s := src.sign b
  if src.isNaN b then
    dst.quiet (dst.inf s +
      (if src.mbits ≤ dst.mbits then src.frac b * 2 ^ (dst.mbits - src.mbits)
       else src.frac b / 2 ^ (src.mbits - dst.mbits)))
  else if src.isInf b then dst.inf s
  else if src.sig b = 0 then dst.zero s
  else dst.round s (src.sig b) 1 (src.exp b)

/-- The conversion `float64(x)` of a `C.float`, on bit patterns. -/
def widen (b : Nat) : Nat := convert binary32 binary64 b

/-- The conversion `C.float(x)` of a `float64`, on bit patterns. -/
def narrow (b : Nat) : Nat := convert binary64 binary32 b

/-- Order key of a non-NaN `float64`: `x < y` iff the key of `x` is below the key of `y`,
and `x == y` iff the keys are equal (the two zeros have key 0). -/
def ordKey (b : Nat) : Int :=
  if binary64.sign b = 1 then -((b % 2 ^ 63 : Nat) : Int) else ((b % 2 ^ 63 : Nat) : Int)

/-- The value `math.NaN()` of Go. -/
def goNaN : Nat := 0x7FF8000000000001

/-- Go `math.Max` on bit patterns. -/
def goMax (x y : Nat) : Nat :=
  if x = binary64.inf 0 ∨ y = binary64.inf 0 then binary64.inf 0
  else if binary64.isNaN x ∨ binary64.isNaN y then goNaN
  else if ordKey x = 0 ∧ ordKey x = ordKey y then
    (if binary64.sign x = 1 then y else x)
  else if ordKey y < ordKey x then x else y

/-- Go `math.Min` on bit patterns. -/
def goMin (x y : Nat) : Nat :=
  if x = binary64.inf 1 ∨ y = binary64.inf 1 then binary64.inf 1
  else if binary64.isNaN x ∨ binary64.isNaN y then goNaN
  else if ordKey x = 0 ∧ ordKey x = ordKey y then
    (if binary64.sign x = 1 then x else y)
  else if ordKey x < ordKey y then x else y

/-- The conversion `float64(r)` of a `uint32`. It is exact: a positive `r` with `k + 1`
binary digits is `r * 2 ^ (52 - k)` units in the last place at exponent `k`. -/
def ofUint32 (r : Nat) : Nat :=
  if r = 0 then 0
  else
    let k := bitLength (r + 1) r - 1
    (1023 + k) * 2 ^ 52 + (r - 2 ^ k) * 2 ^ (52 - k)

/-- The division `x / y` of two `float64` on bit patterns (the default NaN is the one
of amd64). -/
def goDiv (x y : Nat) : Nat :=
  let s := (binary64.sign x + binary64.sign y) % 2
  if binary64.isNaN x then binary64.quiet x
  else if binary64.isNaN y then binary64.quiet y
  else if binary64.isInf x then (if binary64.isInf y then 0xFFF8000000000000 else binary64.inf s)
  else if binary64.isInf y then binary64.zero s
  else if binary64.sig y = 0 then
    (if binary64.sig x = 0 then 0xFFF8000000000000 else binary64.inf s)
  else if binary64.sig x = 0 then binary64.zero s
  else binary64.round s (binary64.sig x) (binary64.sig y) (binary64.exp x - binary64.exp y)

/-- The first cases of Go `math.Pow`, those `toCImage` meets for the clamped samples 0
and 1: `Pow(x, 0) = Pow(1, y) = 1`, `Pow(x, 1) = x`, a NaN argument gives NaN,
`Pow(+0, y) = 0` for `y > 0`. Every other case of `math.Pow` is `powRest`. -/
def goPow (powRest : Nat → Nat → Nat) (x y : Nat) : Nat :=
  if (¬ binary64.isNaN y ∧ ordKey y = 0) ∨ x = 0x3FF0000000000000 then 0x3FF0000000000000
  else if y = 0x3FF0000000000000 then x
  else if binary64.isNaN x ∨ binary64.isNaN y then goNaN
  else if x = 0 ∧ 0 < ordKey y then 0
  else powRest x y

/-- The floating-point primitives on IEEE-754 bit patterns. -/
def ieeeOps (powRest : Nat → Nat → Nat) : FloatOps Nat Nat where
  toGo := widen
  toC := narrow
  zero := 0
  one := 0x3FF0000000000000
  gamma := 0x400199999999999A
  c65535 := 0x40EFFFE000000000
  ofUint32 := ofUint32
  div := goDiv
  max := goMax
  min := goMin
  pow := goPow powRest

/-- Stands for the part of `math.Pow` that `goPow` leaves out; the examples below never
reach it. -/
def powRest0 : Nat → Nat → Nat := fun _ _ => goNaN

/-- The 2 by 2 three-channel buffer with samples 1.0, 2.0, ..., 12.0 (binary32). -/
def rgb2x2 : CImage Nat :=
  ⟨[0x3F800000, 0x40000000, 0x40400000, 0x40800000, 0x40A00000, 0x40C00000,
    0x40E00000, 0x41000000, 0x41100000, 0x41200000, 0x41300000, 0x41400000], 2, 2, 3⟩

/-- The samples of `rgb2x2` as `float64`, with the alpha 1.0 after every three. -/
def rgba2x2 : List Nat :=
  [0x3FF0000000000000, 0x4000000000000000, 0x4008000000000000, 0x3FF0000000000000,
   0x4010000000000000, 0x4014000000000000, 0x4018000000000000, 0x3FF0000000000000,
   0x401C000000000000, 0x4020000000000000, 0x4022000000000000, 0x3FF0000000000000,
   0x4024000000000000, 0x4026000000000000, 0x4028000000000000, 0x3FF0000000000000]

/-! ## Theorems -/

/-! ## Loops and slices -/

theorem foldlM_range_inv {σ β : Type} (f : σ → β → Option σ) (g : Nat → β)
    (Inv : Nat → σ → Prop) (n : Nat) (s0 : σ) (h0 : Inv 0 s0)
    (hstep : ∀ k, k < n → ∀ s, Inv k s → ∃ s', f s (g k) = some s' ∧ Inv (k + 1) s') :
    ∃ s', ((List.range n).map g).foldlM f s0 = some s' ∧ Inv n s' := by
  induction n with
  | zero => exact ⟨s0, by simp, h0⟩
  | succ m ih =>
    obtain ⟨s1, hs1, hinv1⟩ := ih (fun k hk s hs => hstep k (Nat.lt_succ_of_lt hk) s hs)
    obtain ⟨s2, hs2, hinv2⟩ := hstep m (Nat.lt_succ_self m) s1 hinv1
    refine ⟨s2, ?_, hinv2⟩
    rw [List.range_succ, List.map_append, List.foldlM_append, hs1]
    simp [hs2]

theorem setAt_eq_some {α : Type} (data : List α) (i : Nat) (v : α) (h : i < data.length) :
    setAt data (i : Int) v = some (data.set i v) := by
  unfold setAt
  rw [if_pos]
  · simp
  · exact ⟨Int.natCast_nonneg i, by exact_mod_cast h⟩

theorem getAt_natCast {α : Type} (data : List α) (i : Nat) :
    getAt data (i : Int) = data[i]? := by
  unfold getAt
  simp

theorem store4_eq_some {α : Type} (data : List α) (i : Nat) (v0 v1 v2 v3 : α)
    (h : i + 3 < data.length) :
    store4 data (i : Int) v0 v1 v2 v3
      = some ((((data.set i v0).set (i + 1) v1).set (i + 2) v2).set (i + 3) v3) := by
  unfold store4
  have e1 : ((i : Int) + 1) = ((i + 1 : Nat) : Int) := by push_cast; ring
  have e2 : ((i : Int) + 2) = ((i + 2 : Nat) : Int) := by push_cast; ring
  have e3 : ((i : Int) + 3) = ((i + 3 : Nat) : Int) := by push_cast; ring
  rw [e1, e2, e3]
  rw [setAt_eq_some _ _ _ (by omega)]
  simp only [Option.bind_eq_bind, Option.some_bind]
  rw [setAt_eq_some _ _ _ (by simp; omega)]
  simp only [Option.some_bind]
  rw [setAt_eq_some _ _ _ (by simp; omega)]
  simp only [Option.some_bind]
  rw [setAt_eq_some _ _ _ (by simp; omega)]

theorem wrapInt64_of_lt (n : Nat) (h : n < 2 ^ 63) : wrapInt64 (n : Int) = n := by
  unfold wrapInt64
  have h' : (n : Int) < 2 ^ 63 := by exact_mod_cast h
  omega

theorem mulInt_natCast (a b : Nat) (h : a * b < 2 ^ 63) :
    mulInt (a : Int) (b : Int) = ((a * b : Nat) : Int) := by
  unfold mulInt
  rw [← Nat.cast_mul]
  exact wrapInt64_of_lt _ h

theorem take_succ_set {α : Type} (l : List α) (k : Nat) (v : α) (h : k < l.length) :
    (l.set k v).take (k + 1) = l.take k ++ [v] := by
  induction l generalizing k with
  | nil => simp at h
  | cons a t ih =>
    cases k with
    | zero => simp
    | succ k => simpa using ih k (by simpa using h)

theorem wrapInt64_mul_left (x c : Int) : wrapInt64 (wrapInt64 x * c) = wrapInt64 (x * c) := by
  have hx : wrapInt64 x = x - 2 ^ 64 * ((x + 2 ^ 63) / 2 ^ 64) := by
    unfold wrapInt64
    omega
  rw [hx]
  unfold wrapInt64
  have : (x - 2 ^ 64 * ((x + 2 ^ 63) / 2 ^ 64)) * c
      = x * c - 2 ^ 64 * (((x + 2 ^ 63) / 2 ^ 64) * c) := by ring
  rw [this]
  generalize ((x + 2 ^ 63) / 2 ^ 64) * c = m
  generalize x * c = y
  omega

theorem mulInt3_natCast (a b c : Nat) (h : a * b * c < 2 ^ 63) :
    mulInt (mulInt (a : Int) (b : Int)) (c : Int) = ((a * b * c : Nat) : Int) := by
  unfold mulInt
  rw [wrapInt64_mul_left]
  have : (a : Int) * b * c = ((a * b * c : Nat) : Int) := by push_cast; ring
  rw [this]
  exact wrapInt64_of_lt _ h

theorem toRGBASlice_eq (F64 F32 : Type) (ops : FloatOps F64 F32) (cData : List F32)
    (w h c : Nat) (hlen : cData.length = w * h * c) (hfit : w * h * c < 2 ^ 63) :
    toRGBASlice ops cData w h c = some (cData.map ops.toGo) := by
  unfold toRGBASlice
  rw [mulInt3_natCast w h c hfit]
  have hmake : make ops.zero ((w * h * c : Nat) : Int)
      = some (List.replicate (w * h * c) ops.zero) := by
    unfold make
    rw [if_pos (Int.natCast_nonneg _), Int.toNat_natCast]
  rw [hmake]
  simp only [Option.bind_eq_bind, Option.some_bind]
  obtain ⟨out, hout, hlenout, hpre⟩ := foldlM_range_inv
    (fun data i => (getAt cData ((i : Nat) : Int)).bind fun v => setAt data (i : Int) (ops.toGo v))
    id
    (fun k data => data.length = cData.length ∧ data.take k = (cData.take k).map ops.toGo)
    cData.length (List.replicate (w * h * c) ops.zero)
    ⟨by simp [hlen], by simp⟩
    (by
      intro k hk data ⟨hl, hp⟩
      refine ⟨data.set k (ops.toGo cData[k]), ?_, by simpa using hl, ?_⟩
      · simp only [id, getAt_natCast, List.getElem?_eq_getElem hk, Option.some_bind]
        exact setAt_eq_some _ _ _ (by omega)
      · rw [take_succ_set _ _ _ (by omega), hp, List.take_succ (l := cData),
          List.getElem?_eq_getElem hk, List.map_append]
        rfl)
  rw [List.map_id] at hout
  rw [hout]
  congr 1
  rw [List.take_length] at hpre
  rw [← hlenout, List.take_length] at hpre
  exact hpre

theorem rgbStep_eq {F64 F32 : Type} (ops : FloatOps F64 F32) (cData : List F32)
    (data : List F64) (k : Nat) (hc : 3 * k + 2 < cData.length)
    (hd : 4 * k + 3 < data.length) :
    rgbStep ops cData (((3 * k : Nat) : Int), data) ((4 * k : Nat) : Int)
      = some (((3 * (k + 1) : Nat) : Int),
          (((data.set (4 * k) (ops.toGo (cData.get ⟨3 * k, by omega⟩))).set (4 * k + 1)
            (ops.toGo (cData.get ⟨3 * k + 1, by omega⟩))).set (4 * k + 2)
            (ops.toGo (cData.get ⟨3 * k + 2, by omega⟩))).set (4 * k + 3) ops.one) := by
  unfold rgbStep
  have e1 : ((3 * k : Nat) : Int) + 1 = ((3 * k + 1 : Nat) : Int) := by push_cast; ring
  have e2 : ((3 * k + 1 : Nat) : Int) + 1 = ((3 * k + 2 : Nat) : Int) := by push_cast; ring
  have e3 : ((3 * k + 2 : Nat) : Int) + 1 = ((3 * (k + 1) : Nat) : Int) := by push_cast; ring
  have f1 : ((4 * k : Nat) : Int) + 1 = ((4 * k + 1 : Nat) : Int) := by push_cast; ring
  have f2 : ((4 * k : Nat) : Int) + 2 = ((4 * k + 2 : Nat) : Int) := by push_cast; ring
  have f3 : ((4 * k : Nat) : Int) + 3 = ((4 * k + 3 : Nat) : Int) := by push_cast; ring
  simp only [e1, e2, e3, f1, f2, f3, getAt_natCast, Option.bind_eq_bind, Option.pure_def]
  rw [List.getElem?_eq_getElem (show 3 * k < cData.length by omega),
    List.getElem?_eq_getElem (show 3 * k + 1 < cData.length by omega),
    List.getElem?_eq_getElem (show 3 * k + 2 < cData.length by omega)]
  simp only [Option.some_bind]
  rw [setAt_eq_some _ _ _ (by omega)]
  simp only [Option.some_bind]
  rw [setAt_eq_some _ _ _ (by simp; omega)]
  simp only [Option.some_bind]
  rw [setAt_eq_some _ _ _ (by simp; omega)]
  simp only [Option.some_bind]
  rw [setAt_eq_some _ _ _ (by simp; omega)]
  simp only [Option.some_bind, List.get_eq_getElem]

/-- The slice after four consecutive stores at `a .. a+3`. -/
theorem set4_spec {α : Type} (d : List α) (a : Nat) (v0 v1 v2 v3 : α)
    (h : a + 3 < d.length) :
    let d' := (((d.set a v0).set (a + 1) v1).set (a + 2) v2).set (a + 3) v3
    d'.length = d.length ∧ d'[a]? = some v0 ∧ d'[a + 1]? = some v1 ∧
      d'[a + 2]? = some v2 ∧ d'[a + 3]? = some v3 ∧
      ∀ i, (i < a ∨ a + 3 < i) → d'[i]? = d[i]? := by
  intro d'
  refine ⟨by simp [d'], ?_, ?_, ?_, ?_, ?_⟩
  · simp only [d']
    rw [List.getElem?_set_ne (by omega), List.getElem?_set_ne (by omega),
      List.getElem?_set_ne (by omega), List.getElem?_set_self (by omega)]
  · simp only [d']
    rw [List.getElem?_set_ne (by omega), List.getElem?_set_ne (by omega),
      List.getElem?_set_self (by simp; omega)]
  · simp only [d']
    rw [List.getElem?_set_ne (by omega), List.getElem?_set_self (by simp; omega)]
  · simp only [d']
    rw [List.getElem?_set_self (by simp; omega)]
  · intro i hi
    simp only [d']
    rw [List.getElem?_set_ne (by omega), List.getElem?_set_ne (by omega),
      List.getElem?_set_ne (by omega), List.getElem?_set_ne (by omega)]

theorem toRGBSlice_spec (F64 F32 : Type) (ops : FloatOps F64 F32) (cData : List F32)
    (w h : Nat) (hlen : cData.length = w * h * 3) (hfit : w * h * 4 < 2 ^ 63) :
    ∃ out, toRGBSlice ops cData w h = some out ∧ out.length = w * h * 4 ∧
      ∀ p, p < w * h →
        out[4 * p]? = cData[3 * p]?.map ops.toGo ∧
        out[4 * p + 1]? = cData[3 * p + 1]?.map ops.toGo ∧
        out[4 * p + 2]? = cData[3 * p + 2]?.map ops.toGo ∧
        out[4 * p + 3]? = some ops.one := by
  unfold toRGBSlice
  have h4 : mulInt (mulInt (w : Int) (h : Int)) 4 = ((w * h * 4 : Nat) : Int) :=
    mulInt3_natCast w h 4 hfit
  rw [h4]
  have hmake : make ops.zero ((w * h * 4 : Nat) : Int)
      = some (List.replicate (w * h * 4) ops.zero) := by
    unfold make
    rw [if_pos (Int.natCast_nonneg _), Int.toNat_natCast]
  rw [hmake]
  simp only [Option.bind_eq_bind, Option.some_bind, strideFour, List.length_replicate]
  have hn : (w * h * 4 + 3) / 4 = w * h := by omega
  rw [hn]
  obtain ⟨st, hst, hj, hl, hpix⟩ := foldlM_range_inv (rgbStep ops cData)
    (fun k => ((4 * k : Nat) : Int))
    (fun k (st : Int × List F64) => st.1 = ((3 * k : Nat) : Int) ∧ st.2.length = w * h * 4 ∧
      ∀ p, p < k →
        st.2[4 * p]? = cData[3 * p]?.map ops.toGo ∧
        st.2[4 * p + 1]? = cData[3 * p + 1]?.map ops.toGo ∧
        st.2[4 * p + 2]? = cData[3 * p + 2]?.map ops.toGo ∧
        st.2[4 * p + 3]? = some ops.one)
    (w * h) ((0 : Int), List.replicate (w * h * 4) ops.zero)
    ⟨by simp, by simp, by intro p hp; omega⟩
    (by
      rintro k hk ⟨j, data⟩ ⟨hj, hl, hpix⟩
      simp only at hj hl hpix
      subst hj
      have hc : 3 * k + 2 < cData.length := by omega
      have hd : 4 * k + 3 < data.length := by omega
      refine ⟨_, rgbStep_eq ops cData data k hc hd, rfl, ?_, ?_⟩
      · simp [hl]
      · obtain ⟨_, g0, g1, g2, g3, gne⟩ := set4_spec data (4 * k)
          (ops.toGo (cData.get ⟨3 * k, by omega⟩))
          (ops.toGo (cData.get ⟨3 * k + 1, by omega⟩))
          (ops.toGo (cData.get ⟨3 * k + 2, by omega⟩)) ops.one hd
        intro p hp
        by_cases hpk : p = k
        · subst hpk
          simp only
          rw [g0, g1, g2, g3, List.getElem?_eq_getElem (show 3 * p < cData.length by omega),
            List.getElem?_eq_getElem (show 3 * p + 1 < cData.length by omega),
            List.getElem?_eq_getElem (show 3 * p + 2 < cData.length by omega)]
          simp
        · have hlt : p < k := by omega
          simp only
          rw [gne _ (by omega), gne _ (by omega), gne _ (by omega), gne _ (by omega)]
          exact hpix p hlt)
  refine ⟨st.2, ?_, hl, hpix⟩
  rw [hst]
  rfl

theorem pixel_lt (W H i j : Nat) (hi : i < W) (hj : j < H) : j * W + i < W * H := by
  have : (j + 1) * W ≤ H * W := Nat.mul_le_mul_right W hj
  rw [Nat.mul_comm W H]
  rw [Nat.add_mul] at this
  omega

theorem pixelIndex_natCast (bounds : Rectangle) (W i j : Nat) :
    pixelIndex bounds (W : Int) (bounds.Min.X + (i : Int)) (bounds.Min.Y + (j : Int))
      = ((4 * (j * W + i) : Nat) : Int) := by
  unfold pixelIndex
  push_cast
  ring

theorem written_step {α : Type} (W H : Nat) (ox oy : Int) (v0 v1 v2 v3 : Int → Int → α)
    (i j : Nat) (hi : i < W) (hj : j < H) (data : List α)
    (hw : Written W ox oy v0 v1 v2 v3 (W * H * 4) (j * W + i) data) :
    Written W ox oy v0 v1 v2 v3 (W * H * 4) (j * W + (i + 1))
      ((((data.set (4 * (j * W + i)) (v0 (ox + (i : Int)) (oy + (j : Int)))).set
        (4 * (j * W + i) + 1) (v1 (ox + (i : Int)) (oy + (j : Int)))).set
        (4 * (j * W + i) + 2) (v2 (ox + (i : Int)) (oy + (j : Int)))).set
        (4 * (j * W + i) + 3) (v3 (ox + (i : Int)) (oy + (j : Int)))) := by
  obtain ⟨hl, hpix⟩ := hw
  have hlt := pixel_lt W H i j hi hj
  obtain ⟨gl, g0, g1, g2, g3, gne⟩ := set4_spec data (4 * (j * W + i))
    (v0 (ox + (i : Int)) (oy + (j : Int))) (v1 (ox + (i : Int)) (oy + (j : Int)))
    (v2 (ox + (i : Int)) (oy + (j : Int))) (v3 (ox + (i : Int)) (oy + (j : Int)))
    (by omega)
  refine ⟨by rw [gl, hl], ?_⟩
  intro q hq
  by_cases hqe : q = j * W + i
  · subst hqe
    have hmod : (j * W + i) % W = i := by
      rw [Nat.add_comm, Nat.add_mul_mod_self_right, Nat.mod_eq_of_lt hi]
    have hdiv : (j * W + i) / W = j := by
      rw [Nat.add_comm, Nat.add_mul_div_right _ _ (by omega), Nat.div_eq_of_lt hi, Nat.zero_add]
    rw [hmod, hdiv]
    exact ⟨g0, g1, g2, g3⟩
  · have hq' : q < j * W + i := by omega
    rw [gne _ (by omega), gne _ (by omega), gne _ (by omega), gne _ (by omega)]
    exact hpix q hq'

theorem intRange_eq (lo hi : Int) (n : Nat) (h : hi - lo = n) :
    intRange lo hi = (List.range n).map (fun (k : Nat) => lo + (k : Int)) := by
  unfold intRange
  rw [h, Int.toNat_natCast]

theorem pixelLoops_written {α : Type} (bounds : Rectangle) (W H : Nat)
    (hW : bounds.Max.X - bounds.Min.X = W) (hH : bounds.Max.Y - bounds.Min.Y = H)
    (body : Int → List α → Int → Option (List α)) (v0 v1 v2 v3 : Int → Int → α)
    (hbody : ∀ (i j : Nat) (data : List α), i < W → j < H →
      body (bounds.Min.Y + (j : Int)) data (bounds.Min.X + (i : Int))
        = store4 data (pixelIndex bounds (W : Int) (bounds.Min.X + (i : Int))
            (bounds.Min.Y + (j : Int)))
          (v0 (bounds.Min.X + (i : Int)) (bounds.Min.Y + (j : Int)))
          (v1 (bounds.Min.X + (i : Int)) (bounds.Min.Y + (j : Int)))
          (v2 (bounds.Min.X + (i : Int)) (bounds.Min.Y + (j : Int)))
          (v3 (bounds.Min.X + (i : Int)) (bounds.Min.Y + (j : Int))))
    (data0 : List α) (hlen : data0.length = W * H * 4) :
    ∃ out, pixelLoops bounds body data0 = some out ∧
      Written W bounds.Min.X bounds.Min.Y v0 v1 v2 v3 (W * H * 4) (H * W) out := by
  unfold pixelLoops
  rw [intRange_eq _ _ H hH, intRange_eq _ _ W hW]
  apply foldlM_range_inv
    (fun data y => ((List.range W).map (fun (k : Nat) => bounds.Min.X + (k : Int))).foldlM (body y) data)
    (fun (k : Nat) => bounds.Min.Y + (k : Int))
    (fun j data => Written W bounds.Min.X bounds.Min.Y v0 v1 v2 v3 (W * H * 4) (j * W) data)
    H data0
  · exact ⟨hlen, by intro q hq; omega⟩
  · intro j hj data hdata
    have := foldlM_range_inv (body (bounds.Min.Y + (j : Int)))
      (fun (k : Nat) => bounds.Min.X + (k : Int))
      (fun i data => Written W bounds.Min.X bounds.Min.Y v0 v1 v2 v3 (W * H * 4)
        (j * W + i) data)
      W data (by simpa using hdata)
      (by
        intro i hi d hd
        have hlt := pixel_lt W H i j hi hj
        refine ⟨_, ?_, written_step W H _ _ v0 v1 v2 v3 i j hi hj d hd⟩
        rw [hbody i j d hi hj, pixelIndex_natCast]
        exact store4_eq_some _ _ _ _ _ _ (by rw [hd.1]; omega))
    obtain ⟨out, hout, hw⟩ := this
    refine ⟨out, hout, ?_⟩
    have : (j + 1) * W = j * W + W := by ring
    rw [this]
    exact hw

theorem cSlice_garbage {α : Type} (garbage : Nat → α) (N : Nat) (h : N ≤ 2 ^ 30) :
    cSlice ((List.range (N : Int).toNat).map garbage) (N : Int)
      = some ((List.range N).map garbage) := by
  unfold cSlice arrayLen
  rw [Int.toNat_natCast]
  have h' : (N : Int) ≤ 2 ^ 30 := by exact_mod_cast h
  rw [if_pos ⟨Int.natCast_nonneg _, h', by simp⟩]
  rw [List.take_of_length_le (by simp)]

theorem subInt_eq (a b : Int) (n : Nat) (h : a - b = n) (hn : n < 2 ^ 63) :
    subInt a b = n := by
  unfold subInt
  rw [h]
  exact wrapInt64_of_lt n hn

theorem wrapInt32_of_lt (n : Nat) (h : n < 2 ^ 31) : wrapInt32 (n : Int) = n := by
  unfold wrapInt32
  have h' : (n : Int) < 2 ^ 31 := by exact_mod_cast h
  omega

/-- The four samples `toCImage` stores for the colour `c` of a float image. -/
theorem floatPixel_eq {F64 F32 : Type} (ops : FloatOps F64 F32) (img : FloatNRGBA F64)
    (bounds : Rectangle) (width : Int) (isHDRFormat : Bool) (x y : Int) (data : List F32)
    (c : FloatColour F64) (hc : img.FloatNRGBAAt x y = some c) :
    floatPixel ops img bounds width isHDRFormat y data x =
      store4 data (pixelIndex bounds width x y)
        (if isHDRFormat then ops.toC c.R else ops.toC (gammaEncode ops c.R))
        (if isHDRFormat then ops.toC c.G else ops.toC (gammaEncode ops c.G))
        (if isHDRFormat then ops.toC c.B else ops.toC (gammaEncode ops c.B))
        (if isHDRFormat then ops.toC c.A else ops.toC (clamp01 ops c.A)) := by
  unfold floatPixel
  rw [hc]
  cases isHDRFormat <;> simp

theorem written_at {α : Type} (W H : Nat) (ox oy : Int) (v0 v1 v2 v3 : Int → Int → α)
    (data : List α) (hw : Written W ox oy v0 v1 v2 v3 (W * H * 4) (H * W) data)
    (i j : Nat) (hi : i < W) (hj : j < H) :
    data[4 * (j * W + i)]? = some (v0 (ox + (i : Int)) (oy + (j : Int))) ∧
    data[4 * (j * W + i) + 1]? = some (v1 (ox + (i : Int)) (oy + (j : Int))) ∧
    data[4 * (j * W + i) + 2]? = some (v2 (ox + (i : Int)) (oy + (j : Int))) ∧
    data[4 * (j * W + i) + 3]? = some (v3 (ox + (i : Int)) (oy + (j : Int))) := by
  have hlt := pixel_lt W H i j hi hj
  have hmod : (j * W + i) % W = i := by
    rw [Nat.add_comm, Nat.add_mul_mod_self_right, Nat.mod_eq_of_lt hi]
  have hdiv : (j * W + i) / W = j := by
    rw [Nat.add_comm, Nat.add_mul_div_right _ _ (by omega), Nat.div_eq_of_lt hi, Nat.zero_add]
  have := hw.2 (j * W + i) (by rw [Nat.mul_comm H W]; exact hlt)
  rw [hmod, hdiv] at this
  exact this

theorem toCImage_float_written {F64 F32 : Type} (ops : FloatOps F64 F32)
    (garbage : Nat → F32) (img : FloatNRGBA F64) (isHDRFormat : Bool) (W H : Nat)
    (hW : img.Rect.Max.X - img.Rect.Min.X = W) (hH : img.Rect.Max.Y - img.Rect.Min.Y = H)
    (hW31 : W < 2 ^ 31) (hH31 : H < 2 ^ 31) (hcap : W * H * 4 ≤ 2 ^ 30)
    (hacc : ∀ i j : Nat, i < W → j < H →
      ∃ c, img.FloatNRGBAAt (img.Rect.Min.X + (i : Int)) (img.Rect.Min.Y + (j : Int)) = some c) :
    ∃ data, toCImage ops garbage (.float img) isHDRFormat = some ⟨data, W, H, 4⟩ ∧
      data.length = W * H * 4 ∧
      ∀ i j : Nat, i < W → j < H →
        ∃ c, img.FloatNRGBAAt (img.Rect.Min.X + (i : Int)) (img.Rect.Min.Y + (j : Int))
            = some c ∧
          data[4 * (j * W + i)]?
            = some (if isHDRFormat then ops.toC c.R else ops.toC (gammaEncode ops c.R)) ∧
          data[4 * (j * W + i) + 1]?
            = some (if isHDRFormat then ops.toC c.G else ops.toC (gammaEncode ops c.G)) ∧
          data[4 * (j * W + i) + 2]?
            = some (if isHDRFormat then ops.toC c.B else ops.toC (gammaEncode ops c.B)) ∧
          data[4 * (j * W + i) + 3]?
            = some (if isHDRFormat then ops.toC c.A else ops.toC (clamp01 ops c.A)) := by
  have hdx : img.Rect.Dx = W := subInt_eq _ _ W hW (by omega)
  have hdy : img.Rect.Dy = H := subInt_eq _ _ H hH (by omega)
  have hn : mulInt (mulInt (W : Int) (H : Int)) 4 = ((W * H * 4 : Nat) : Int) :=
    mulInt3_natCast W H 4 (by omega)
  obtain ⟨out, hout, hw⟩ := pixelLoops_written img.Rect W H hW hH
    (floatPixel ops img img.Rect (W : Int) isHDRFormat)
    (fun x y => (img.FloatNRGBAAt x y).elim (garbage 0) fun c =>
      if isHDRFormat then ops.toC c.R else ops.toC (gammaEncode ops c.R))
    (fun x y => (img.FloatNRGBAAt x y).elim (garbage 0) fun c =>
      if isHDRFormat then ops.toC c.G else ops.toC (gammaEncode ops c.G))
    (fun x y => (img.FloatNRGBAAt x y).elim (garbage 0) fun c =>
      if isHDRFormat then ops.toC c.B else ops.toC (gammaEncode ops c.B))
    (fun x y => (img.FloatNRGBAAt x y).elim (garbage 0) fun c =>
      if isHDRFormat then ops.toC c.A else ops.toC (clamp01 ops c.A))
    (by
      intro i j data hi hj
      obtain ⟨c, hc⟩ := hacc i j hi hj
      rw [floatPixel_eq ops img img.Rect _ isHDRFormat _ _ data c hc]
      simp only [hc, Option.elim])
    ((List.range (W * H * 4)).map garbage) (by simp)
  refine ⟨out, ?_, hw.1, ?_⟩
  · unfold toCImage
    simp only [Image.Bounds, hdx, hdy, hn, cSlice_garbage garbage _ hcap,
      Option.bind_eq_bind, Option.some_bind, hout, Option.pure_def,
      wrapInt32_of_lt W hW31, wrapInt32_of_lt H hH31]
    rfl
  · intro i j hi hj
    obtain ⟨c, hc⟩ := hacc i j hi hj
    have := written_at W H _ _ _ _ _ _ out hw i j hi hj
    simp only [hc, Option.elim] at this
    exact ⟨c, hc, this⟩

theorem toCImage_other_written {F64 F32 : Type} (ops : FloatOps F64 F32)
    (garbage : Nat → F32) (bounds : Rectangle)
    (rgbaAt : Int → Int → Nat × Nat × Nat × Nat) (isHDRFormat : Bool) (W H : Nat)
    (hW : bounds.Max.X - bounds.Min.X = W) (hH : bounds.Max.Y - bounds.Min.Y = H)
    (hW31 : W < 2 ^ 31) (hH31 : H < 2 ^ 31) (hcap : W * H * 4 ≤ 2 ^ 30) :
    ∃ data, toCImage ops garbage (Image.other bounds rgbaAt) isHDRFormat
        = some ⟨data, W, H, 4⟩ ∧
      data.length = W * H * 4 ∧
      ∀ i j : Nat, i < W → j < H →
        data[4 * (j * W + i)]?
          = some (normalize16 ops (rgbaAt (bounds.Min.X + (i : Int))
              (bounds.Min.Y + (j : Int))).1) ∧
        data[4 * (j * W + i) + 1]?
          = some (normalize16 ops (rgbaAt (bounds.Min.X + (i : Int))
              (bounds.Min.Y + (j : Int))).2.1) ∧
        data[4 * (j * W + i) + 2]?
          = some (normalize16 ops (rgbaAt (bounds.Min.X + (i : Int))
              (bounds.Min.Y + (j : Int))).2.2.1) ∧
        data[4 * (j * W + i) + 3]?
          = some (normalize16 ops (rgbaAt (bounds.Min.X + (i : Int))
              (bounds.Min.Y + (j : Int))).2.2.2) := by
  have hdx : bounds.Dx = W := subInt_eq _ _ W hW (by omega)
  have hdy : bounds.Dy = H := subInt_eq _ _ H hH (by omega)
  have hn : mulInt (mulInt (W : Int) (H : Int)) 4 = ((W * H * 4 : Nat) : Int) :=
    mulInt3_natCast W H 4 (by omega)
  obtain ⟨out, hout, hw⟩ := pixelLoops_written bounds W H hW hH
    (otherPixel ops rgbaAt bounds (W : Int))
    (fun x y => normalize16 ops (rgbaAt x y).1)
    (fun x y => normalize16 ops (rgbaAt x y).2.1)
    (fun x y => normalize16 ops (rgbaAt x y).2.2.1)
    (fun x y => normalize16 ops (rgbaAt x y).2.2.2)
    (by
      intro i j data _ _
      rfl)
    ((List.range (W * H * 4)).map garbage) (by simp)
  refine ⟨out, ?_, hw.1, ?_⟩
  · unfold toCImage
    simp only [Image.Bounds, hdx, hdy, hn, cSlice_garbage garbage _ hcap,
      Option.bind_eq_bind, Option.some_bind, hout, Option.pure_def,
      wrapInt32_of_lt W hW31, wrapInt32_of_lt H hH31]
    rfl
  · intro i j hi hj
    exact written_at W H _ _ _ _ _ _ out hw i j hi hj

/-! ## Format classifier -/

theorem extLoop_eq (rev acc : List Char) :
    extLoop rev acc =
      if '.' ∈ rev.takeWhile (fun c => !isPathSeparator c) then
        '.' :: ((rev.takeWhile (fun c => !isPathSeparator c)).takeWhile
          (fun c => c != '.')).reverse ++ acc
      else [] := by
  induction rev generalizing acc with
  | nil => simp [extLoop]
  | cons c rest ih =>
    by_cases hs : isPathSeparator c = true
    · simp [extLoop, hs]
    · by_cases hd : c = '.'
      · subst hd
        simp [extLoop, hs, List.takeWhile_cons]
      · have hd2 : ¬ ('.' = c) := fun h => hd h.symm
        simp [extLoop, hs, hd, hd2, List.takeWhile_cons, ih]

theorem Ext_eq_extensionSpec (path : List Char) : Ext path = extensionSpec path := by
  unfold Ext extensionSpec suffixFromLastDot lastElement
  rw [extLoop_eq]
  simp

theorem toLower_ascii (c : Char) (h : (Char.toLower c).toNat < 128) : c.toNat < 128 := by
  by_cases hc : c.toNat ≥ 65 ∧ c.toNat ≤ 90
  · omega
  · simpa [Char.toLower, hc] using h

theorem toLower_upper (c : Char) (hc : c.toNat ≥ 65 ∧ c.toNat ≤ 90) :
    (Char.toLower c).toNat = c.toNat + 32 := by
  have hv : (c.toNat + 32).isValidChar := by
    left; omega
  simp only [Char.toLower, hc, and_self, if_true]
  rw [Char.ofNat, dif_pos hv]
  rfl

theorem toLower_eq_dot (c : Char) (h : Char.toLower c = '.') : c = '.' := by
  by_cases hc : c.toNat ≥ 65 ∧ c.toNat ≤ 90
  · have h1 := toLower_upper c hc
    rw [h] at h1
    have : ('.' : Char).toNat = 46 := by decide
    omega
  · simpa [Char.toLower, hc] using h

theorem toLower_ne (c t : Char) (ht : Char.toLower t = t) (h : Char.toLower c ≠ t) :
    c ≠ t := by
  intro hct
  subst hct
  exact h ht

theorem extLoop_suffix (r s acc : List Char) (hr : ∀ c ∈ r, c ≠ '.' ∧ c ≠ '/') :
    extLoop (r ++ '.' :: s) acc = '.' :: r.reverse ++ acc := by
  induction r generalizing acc with
  | nil => simp [extLoop, isPathSeparator]
  | cons c rest ih =>
    have hc := hr c (List.mem_cons_self _ _)
    have hrest : ∀ c ∈ rest, c ≠ '.' ∧ c ≠ '/' := fun d hd => hr d (List.mem_cons_of_mem _ hd)
    simp [extLoop, isPathSeparator, hc.1, hc.2, ih _ hrest]

theorem Ext_append_suffix (stem r : List Char) (hr : ∀ c ∈ r, c ≠ '.' ∧ c ≠ '/') :
    Ext (stem ++ '.' :: r) = '.' :: r := by
  unfold Ext
  have : (stem ++ '.' :: r).reverse = r.reverse ++ '.' :: stem.reverse := by simp
  rw [this, extLoop_suffix _ _ _ (by simpa using hr)]
  simp

theorem mixedCase_accepted (u : Char → Char) (stem e : List Char)
    (he : e.map Char.toLower ∈ hdrExtensions) : isHDR u (stem ++ e) = true := by
  have hascii : e.all (fun c => decide (c.toNat < 128)) = true := by
    rw [List.all_eq_true]
    intro c hc
    have hm : Char.toLower c ∈ e.map Char.toLower := List.mem_map_of_mem _ hc
    have : (Char.toLower c).toNat < 128 := by
      revert hm
      generalize Char.toLower c = d
      intro hm
      simp only [hdrExtensions, List.mem_cons, List.mem_singleton, List.not_mem_nil,
        or_false] at he
      rcases he with he | he | he | he <;> rw [he] at hm <;>
        simp only [String.toList, List.mem_cons, List.mem_singleton, List.not_mem_nil,
          or_false] at hm <;>
        rcases hm with hm | hm | hm | hm <;> subst hm <;> decide
    simpa using toLower_ascii c this
  have hisHDR : ∀ p, Ext p = e → isHDR u p = true := by
    intro p hp
    have hl : ToLower u e ∈ hdrExtensions := by
      unfold ToLower
      rw [if_pos hascii]
      exact he
    unfold isHDR
    rw [hp]
    simp only [hdrExtensions, List.mem_cons, List.mem_singleton, List.not_mem_nil,
      or_false] at hl
    simp only [hl, if_true]
  apply hisHDR
  cases e with
  | nil => simp [hdrExtensions] at he
  | cons c0 r =>
    have hdot : Char.toLower c0 = '.' ∧
        ∀ c ∈ r, Char.toLower c ≠ '.' ∧ Char.toLower c ≠ '/' := by
      simp only [hdrExtensions, List.mem_cons, List.mem_singleton, List.not_mem_nil,
        or_false, List.map_cons, String.toList] at he
      rcases he with he | he | he | he <;>
        (obtain ⟨h0, hr⟩ := List.cons.inj he
         refine ⟨h0, ?_⟩
         intro c hc
         have hm : Char.toLower c ∈ r.map Char.toLower := List.mem_map_of_mem _ hc
         rw [hr] at hm
         revert hm
         generalize Char.toLower c = d
         intro hm
         simp only [List.mem_cons, List.mem_singleton, List.not_mem_nil, or_false] at hm
         rcases hm with hm | hm | hm <;> subst hm <;> decide)
    have h0 := toLower_eq_dot c0 hdot.1
    subst h0
    apply Ext_append_suffix
    intro c hc
    exact ⟨toLower_ne c '.' (by decide) (hdot.2 c hc).1,
      toLower_ne c '/' (by decide) (hdot.2 c hc).2⟩

/-- C1. `isHDR` is true exactly when the extension of the path (the suffix from the last
dot of the last path element), lower-cased by `strings.ToLower`, is one of `.hdr`, `.exr`,
`.pfm`, `.dpx`; it is false for any other extension and for a path without extension; and
every upper/lower-case spelling of the four extensions, after any stem, is accepted. -/
theorem isHDR_iff_extension (unicodeToLower : Char → Char) (path : List Char) :
    (isHDR unicodeToLower path = true ↔
      ToLower unicodeToLower (extensionSpec path) ∈ hdrExtensions) ∧
    (ToLower unicodeToLower (extensionSpec path) ∉ hdrExtensions →
      isHDR unicodeToLower path = false) ∧
    (extensionSpec path = [] → isHDR unicodeToLower path = false) ∧
    (∀ stem e : List Char, e.map Char.toLower ∈ hdrExtensions →
      isHDR unicodeToLower (stem ++ e) = true) := by
  have hiff : isHDR unicodeToLower path = true ↔
      ToLower unicodeToLower (extensionSpec path) ∈ hdrExtensions := by
    unfold isHDR
    rw [Ext_eq_extensionSpec]
    simp only [hdrExtensions, List.mem_cons, List.mem_singleton, List.not_mem_nil, or_false]
    constructor
    · intro h
      by_contra hn
      rw [if_neg hn] at h
      exact Bool.noConfusion h
    · intro h
      rw [if_pos h]
  refine ⟨hiff, ?_, ?_, fun stem e he => mixedCase_accepted unicodeToLower stem e he⟩
  · intro hn
    cases hb : isHDR unicodeToLower path with
    | false => rfl
    | true => exact absurd (hiff.mp hb) hn
  · intro hnil
    cases hb : isHDR unicodeToLower path with
    | false => rfl
    | true =>
      have := hiff.mp hb
      rw [hnil] at this
      revert this
      unfold ToLower hdrExtensions
      simp

/-! ## Pixel unmarshaller -/

theorem cSlice_exact {α : Type} (data : List α) (n : Nat) (hlen : data.length = n)
    (hcap : n ≤ 2 ^ 30) : cSlice data (n : Int) = some data := by
  unfold cSlice arrayLen
  have h' : (n : Int) ≤ 2 ^ 30 := by exact_mod_cast hcap
  rw [if_pos ⟨Int.natCast_nonneg _, h', by rw [hlen]⟩, Int.toNat_natCast,
    List.take_of_length_le (by omega)]

theorem ReadImage_unsupported {F64 F32 : Type} (ops : FloatOps F64 F32) (data : List F32)
    (w h c : Nat) (hlen : data.length = w * h * c) (hcap : w * h * c ≤ 2 ^ 30)
    (h3 : c ≠ 3) (h4 : c ≠ 4) :
    ReadImage ops (.ok ⟨data, w, h, c⟩) = some (none, some (unsupportedChannels c)) ∧
    Pkg.ReadImage ops (.ok ⟨data, w, h, c⟩) = some (none, some (unsupportedChannels c)) := by
  have hn : mulInt (mulInt (w : Int) (h : Int)) (c : Int) = ((w * h * c : Nat) : Int) :=
    mulInt3_natCast w h c (by omega)
  have h3' : ¬ ((c : Int) = 3) := by omega
  have h4' : ¬ ((c : Int) = 4) := by omega
  have e1 : ReadImage ops (.ok ⟨data, w, h, c⟩)
      = (cSlice data (mulInt (mulInt (w : Int) (h : Int)) (c : Int))).bind fun cData =>
          if (c : Int) = 3 then
            (toRGBSlice ops cData (w : Int) (h : Int)).bind fun d =>
              some (some ⟨d, mulInt (w : Int) (c : Int), ⟨⟨0, 0⟩, ⟨w, h⟩⟩⟩, none)
          else if (c : Int) = 4 then
            (toRGBASlice ops cData (w : Int) (h : Int) (c : Int)).bind fun d =>
              some (some ⟨d, mulInt (w : Int) (c : Int), ⟨⟨0, 0⟩, ⟨w, h⟩⟩⟩, none)
          else some (none, some (unsupportedChannels (c : Int))) := rfl
  have e2 : Pkg.ReadImage ops (.ok ⟨data, w, h, c⟩)
      = (cSlice data (mulInt (mulInt (w : Int) (h : Int)) (c : Int))).bind fun cData =>
          if (c : Int) = 3 then
            (toRGBSlice ops cData (w : Int) (h : Int)).bind fun d =>
              some (some (NewFloatNRGBA ⟨⟨0, 0⟩, ⟨w, h⟩⟩ d), none)
          else if (c : Int) = 4 then
            (toRGBASlice ops cData (w : Int) (h : Int) (c : Int)).bind fun d =>
              some (some (NewFloatNRGBA ⟨⟨0, 0⟩, ⟨w, h⟩⟩ d), none)
          else some (none, some (unsupportedChannels (c : Int))) := rfl
  constructor
  · rw [e1, hn, cSlice_exact data _ hlen hcap, Option.some_bind, if_neg h3', if_neg h4']
  · rw [e2, hn, cSlice_exact data _ hlen hcap, Option.some_bind, if_neg h3', if_neg h4']

theorem ReadImage_four {F64 F32 : Type} (ops : FloatOps F64 F32) (data : List F32)
    (w h : Nat) (hlen : data.length = w * h * 4) (hcap : w * h * 4 ≤ 2 ^ 30)
    (hw : w < 2 ^ 31) :
    ReadImage ops (.ok ⟨data, w, h, 4⟩)
      = some (some ⟨data.map ops.toGo, ((w * 4 : Nat) : Int), ⟨⟨0, 0⟩, ⟨w, h⟩⟩⟩, none) ∧
    Pkg.ReadImage ops (.ok ⟨data, w, h, 4⟩)
      = some (some ⟨data.map ops.toGo, ((w * 4 : Nat) : Int), ⟨⟨0, 0⟩, ⟨w, h⟩⟩⟩, none) := by
  have hn : mulInt (mulInt (w : Int) (h : Int)) 4 = ((w * h * 4 : Nat) : Int) :=
    mulInt3_natCast w h 4 (by omega)
  have hs : mulInt (w : Int) 4 = ((w * 4 : Nat) : Int) :=
    mulInt_natCast w 4 (by omega)
  have hs' : mulInt 4 (w : Int) = ((w * 4 : Nat) : Int) := by
    rw [show (4 : Int) = ((4 : Nat) : Int) from rfl, mulInt_natCast 4 w (by omega), Nat.mul_comm]
  have hcopy : toRGBASlice ops data (w : Int) (h : Int) 4 = some (data.map ops.toGo) :=
    toRGBASlice_eq F64 F32 ops data w h 4 hlen (by omega)
  have hdx : (⟨⟨0, 0⟩, ⟨(w : Int), (h : Int)⟩⟩ : Rectangle).Dx = w :=
    subInt_eq _ _ w (by simp) (by omega)
  have e1 : ReadImage ops (.ok ⟨data, w, h, 4⟩)
      = (cSlice data (mulInt (mulInt (w : Int) (h : Int)) 4)).bind fun cData =>
          (toRGBASlice ops cData (w : Int) (h : Int) 4).bind fun d =>
            some (some ⟨d, mulInt (w : Int) 4, ⟨⟨0, 0⟩, ⟨w, h⟩⟩⟩, none) := rfl
  have e2 : Pkg.ReadImage ops (.ok ⟨data, w, h, 4⟩)
      = (cSlice data (mulInt (mulInt (w : Int) (h : Int)) 4)).bind fun cData =>
          (toRGBASlice ops cData (w : Int) (h : Int) 4).bind fun d =>
            some (some (NewFloatNRGBA ⟨⟨0, 0⟩, ⟨w, h⟩⟩ d), none) := rfl
  constructor
  · rw [e1, hn, cSlice_exact data _ hlen hcap, Option.some_bind, hcopy, Option.some_bind, hs]
  · rw [e2, hn, cSlice_exact data _ hlen hcap, Option.some_bind, hcopy, Option.some_bind]
    unfold NewFloatNRGBA
    rw [hdx, hs']


theorem ReadImage_three {F64 F32 : Type} (ops : FloatOps F64 F32) (data : List F32)
    (w h : Nat) (hlen : data.length = w * h * 3) (hcap : w * h * 3 ≤ 2 ^ 30)
    (hw : w < 2 ^ 31) :
    ∃ pix, toRGBSlice ops data (w : Int) (h : Int) = some pix ∧
      ReadImage ops (.ok ⟨data, w, h, 3⟩)
        = some (some ⟨pix, ((w * 3 : Nat) : Int), ⟨⟨0, 0⟩, ⟨w, h⟩⟩⟩, none) ∧
      Pkg.ReadImage ops (.ok ⟨data, w, h, 3⟩)
        = some (some ⟨pix, ((w * 4 : Nat) : Int), ⟨⟨0, 0⟩, ⟨w, h⟩⟩⟩, none) := by
  have hn : mulInt (mulInt (w : Int) (h : Int)) 3 = ((w * h * 3 : Nat) : Int) :=
    mulInt3_natCast w h 3 (by omega)
  have hs : mulInt (w : Int) 3 = ((w * 3 : Nat) : Int) :=
    mulInt_natCast w 3 (by omega)
  have hs' : mulInt 4 (w : Int) = ((w * 4 : Nat) : Int) := by
    rw [show (4 : Int) = ((4 : Nat) : Int) from rfl, mulInt_natCast 4 w (by omega), Nat.mul_comm]
  obtain ⟨pix, hpix, _, _⟩ := toRGBSlice_spec F64 F32 ops data w h hlen (by omega)
  have hdx : (⟨⟨0, 0⟩, ⟨(w : Int), (h : Int)⟩⟩ : Rectangle).Dx = w :=
    subInt_eq _ _ w (by simp) (by omega)
  have e1 : ReadImage ops (.ok ⟨data, w, h, 3⟩)
      = (cSlice data (mulInt (mulInt (w : Int) (h : Int)) 3)).bind fun cData =>
          (toRGBSlice ops cData (w : Int) (h : Int)).bind fun d =>
            some (some ⟨d, mulInt (w : Int) 3, ⟨⟨0, 0⟩, ⟨w, h⟩⟩⟩, none) := rfl
  have e2 : Pkg.ReadImage ops (.ok ⟨data, w, h, 3⟩)
      = (cSlice data (mulInt (mulInt (w : Int) (h : Int)) 3)).bind fun cData =>
          (toRGBSlice ops cData (w : Int) (h : Int)).bind fun d =>
            some (some (NewFloatNRGBA ⟨⟨0, 0⟩, ⟨w, h⟩⟩ d), none) := rfl
  refine ⟨pix, hpix, ?_, ?_⟩
  · rw [e1, hn, cSlice_exact data _ hlen hcap, Option.some_bind, hpix, Option.some_bind, hs]
  · rw [e2, hn, cSlice_exact data _ hlen hcap, Option.some_bind, hpix, Option.some_bind]
    unfold NewFloatNRGBA
    rw [hdx, hs']

/-- C3. On the 2 by 2 three-channel buffer 1.0 .. 12.0, `ReadImage` of `oiio/oiio.go`
returns 16 samples with `Stride = 6` (width * 3), so `height * Stride = 12` is not the
length and pixel (0, 1) is read at offset 6 as (6.0, 1.0, 7.0, 8.0); `ReadImage` of
`pkg/oiio/oiio.go` returns the same samples with `Stride = 8` and pixel (0, 1) is
(7.0, 8.0, 9.0, 1.0). -/
theorem ReadImage_three_channel_stride :
    ReadImage (ieeeOps powRest0) (.ok rgb2x2)
      = some (some ⟨rgba2x2, 6, ⟨⟨0, 0⟩, ⟨2, 2⟩⟩⟩, none) ∧
    rgba2x2.length = 16 ∧ (2 : Int) * 6 ≠ 16 ∧
    FloatNRGBA.FloatNRGBAAt ⟨rgba2x2, 6, ⟨⟨0, 0⟩, ⟨2, 2⟩⟩⟩ 0 1
      = some ⟨0x4018000000000000, 0x3FF0000000000000, 0x401C000000000000,
          0x4020000000000000⟩ ∧
    Pkg.ReadImage (ieeeOps powRest0) (.ok rgb2x2)
      = some (some ⟨rgba2x2, 8, ⟨⟨0, 0⟩, ⟨2, 2⟩⟩⟩, none) ∧
    FloatNRGBA.FloatNRGBAAt ⟨rgba2x2, 8, ⟨⟨0, 0⟩, ⟨2, 2⟩⟩⟩ 0 1
      = some ⟨0x401C000000000000, 0x4020000000000000, 0x4022000000000000,
          0x3FF0000000000000⟩ := by
  refine ⟨by decide, by decide, by decide, by decide, by decide, by decide⟩

theorem ReadImage_large_buffer_panics :
    ReadImage (ieeeOps powRest0)
      (.ok ⟨List.replicate (16384 * 16384 * 5) 0, 16384, 16384, 5⟩) = none ∧
    (List.replicate (16384 * 16384 * 5) 0).length = 16384 * 16384 * 5 := by
  refine ⟨?_, List.length_replicate _ _⟩
  have e1 : ReadImage (ieeeOps powRest0)
      (.ok ⟨List.replicate (16384 * 16384 * 5) 0, 16384, 16384, 5⟩)
      = (cSlice (List.replicate (16384 * 16384 * 5) (0 : Nat))
          (mulInt (mulInt 16384 16384) 5)).bind fun cData =>
            some (none, some (unsupportedChannels 5)) := rfl
  have hn : mulInt (mulInt 16384 16384) 5 = 1342177280 := by decide
  rw [e1, hn]
  unfold cSlice
  rw [if_neg (by
    intro h
    have := h.2.1
    revert this
    decide)]
  rfl

theorem ReadImage_ok_unfold {F64 F32 : Type} (ops : FloatOps F64 F32) (cImage : CImage F32) :
    ReadImage ops (.ok cImage)
      = (cSlice cImage.data
          (mulInt (mulInt cImage.width cImage.height) cImage.channels)).bind fun cData =>
          if cImage.channels = 3 then
            (toRGBSlice ops cData cImage.width cImage.height).bind fun d =>
              some (some ⟨d, mulInt cImage.width cImage.channels,
                ⟨⟨0, 0⟩, ⟨cImage.width, cImage.height⟩⟩⟩, none)
          else if cImage.channels = 4 then
            (toRGBASlice ops cData cImage.width cImage.height cImage.channels).bind fun d =>
              some (some ⟨d, mulInt cImage.width cImage.channels,
                ⟨⟨0, 0⟩, ⟨cImage.width, cImage.height⟩⟩⟩, none)
          else some (none, some (unsupportedChannels cImage.channels)) := rfl

theorem Pkg_ReadImage_ok_unfold {F64 F32 : Type} (ops : FloatOps F64 F32)
    (cImage : CImage F32) :
    Pkg.ReadImage ops (.ok cImage)
      = (cSlice cImage.data
          (mulInt (mulInt cImage.width cImage.height) cImage.channels)).bind fun cData =>
          if cImage.channels = 3 then
            (toRGBSlice ops cData cImage.width cImage.height).bind fun d =>
              some (some (NewFloatNRGBA ⟨⟨0, 0⟩, ⟨cImage.width, cImage.height⟩⟩ d), none)
          else if cImage.channels = 4 then
            (toRGBASlice ops cData cImage.width cImage.height cImage.channels).bind fun d =>
              some (some (NewFloatNRGBA ⟨⟨0, 0⟩, ⟨cImage.width, cImage.height⟩⟩ d), none)
          else some (none, some (unsupportedChannels cImage.channels)) := rfl

theorem ReadImage_never_both {F64 F32 : Type} (ops : FloatOps F64 F32)
    (decoded : Decoded F32) (r : Option (FloatNRGBA F64) × Option String)
    (h : ReadImage ops decoded = some r ∨ Pkg.ReadImage ops decoded = some r) :
    (r.1 = none ∧ r.2 ≠ none) ∨ (r.1 ≠ none ∧ r.2 = none) := by
  have key : ∀ (o : Option (List F32)) (p q : List F32 → Option (List F64))
      (mk3 mk4 : List F64 → FloatNRGBA F64) (c : Int) (msg : String),
      (o.bind fun cData =>
        if c = 3 then (p cData).bind fun d => some (some (mk3 d), none)
        else if c = 4 then (q cData).bind fun d => some (some (mk4 d), none)
        else some (none, some msg)) = some r →
      (r.1 = none ∧ r.2 ≠ none) ∨ (r.1 ≠ none ∧ r.2 = none) := by
    intro o p q mk3 mk4 c msg hr
    cases o with
    | none => simp at hr
    | some cData =>
      rw [Option.some_bind] at hr
      by_cases h3 : c = 3
      · rw [if_pos h3] at hr
        cases hp : p cData with
        | none => rw [hp] at hr; simp at hr
        | some d =>
          rw [hp, Option.some_bind] at hr
          cases hr
          exact Or.inr ⟨by simp, rfl⟩
      · rw [if_neg h3] at hr
        by_cases h4 : c = 4
        · rw [if_pos h4] at hr
          cases hq : q cData with
          | none => rw [hq] at hr; simp at hr
          | some d =>
            rw [hq, Option.some_bind] at hr
            cases hr
            exact Or.inr ⟨by simp, rfl⟩
        · rw [if_neg h4] at hr
          cases hr
          exact Or.inl ⟨rfl, by simp⟩
  cases decoded with
  | failed e =>
    rcases h with h | h
    · cases e with
      | none =>
        have : r = (none, some "failed to read image") := by
          have e0 : ReadImage ops (Decoded.failed (none : Option String))
              = some ((none : Option (FloatNRGBA F64)), some "failed to read image") := rfl
          rw [e0] at h
          exact (Option.some.inj h).symm
        subst this
        exact Or.inl ⟨rfl, by simp⟩
      | some err =>
        have : r = (none, some ("failed to read image: " ++ err)) := by
          have e0 : ReadImage ops (Decoded.failed (some err))
              = some ((none : Option (FloatNRGBA F64)),
                  some ("failed to read image: " ++ err)) := rfl
          rw [e0] at h
          exact (Option.some.inj h).symm
        subst this
        exact Or.inl ⟨rfl, by simp⟩
    · have : r = (none, some "failed to read image") := by
        have e0 : Pkg.ReadImage ops (Decoded.failed e)
            = some ((none : Option (FloatNRGBA F64)), some "failed to read image") := rfl
        rw [e0] at h
        exact (Option.some.inj h).symm
      subst this
      exact Or.inl ⟨rfl, by simp⟩
  | ok cImage =>
    rcases h with h | h
    · rw [ReadImage_ok_unfold] at h
      exact key _ _ _ _ _ _ _ h
    · rw [Pkg_ReadImage_ok_unfold] at h
      exact key _ _ _ _ _ _ _ h

/-- C4 (amended). For a decoded buffer of `w*h*c` samples that fits the array type the
memory is cast to (`w*h*c ≤ 2^30`, `w` a `C.int`): when the channel count `c` is neither
3 nor 4, both `ReadImage` return no image and the error "unsupported number of channels:
<c>"; when it is 3 or 4 they return an image and no error. For every input, whatever
`ReadImage` returns is an error without image or an image without error. -/
theorem ReadImage_error_or_image {F64 F32 : Type} (ops : FloatOps F64 F32)
    (data : List F32) (w h c : Nat) (hlen : data.length = w * h * c)
    (hcap : w * h * c ≤ 2 ^ 30) (hw : w < 2 ^ 31) :
    (c ≠ 3 → c ≠ 4 →
      ReadImage ops (.ok ⟨data, w, h, c⟩) = some (none, some (unsupportedChannels c)) ∧
      Pkg.ReadImage ops (.ok ⟨data, w, h, c⟩) = some (none, some (unsupportedChannels c))) ∧
    (c = 3 ∨ c = 4 →
      (∃ img, ReadImage ops (.ok ⟨data, w, h, c⟩) = some (some img, none)) ∧
      (∃ img, Pkg.ReadImage ops (.ok ⟨data, w, h, c⟩) = some (some img, none))) ∧
    (∀ (decoded : Decoded F32) (r : Option (FloatNRGBA F64) × Option String),
      (ReadImage ops decoded = some r ∨ Pkg.ReadImage ops decoded = some r) →
      (r.1 = none ∧ r.2 ≠ none) ∨ (r.1 ≠ none ∧ r.2 = none)) ∧
    unsupportedChannels 1 = "unsupported number of channels: 1" ∧
    unsupportedChannels 2 = "unsupported number of channels: 2" ∧
    unsupportedChannels 5 = "unsupported number of channels: 5" := by
  refine ⟨fun h3 h4 => ReadImage_unsupported ops data w h c hlen hcap h3 h4, ?_,
    fun decoded r hr => ReadImage_never_both ops decoded r hr, rfl, rfl, rfl⟩
  rintro (rfl | rfl)
  · obtain ⟨pix, _, h1, h2⟩ := ReadImage_three ops data w h hlen hcap hw
    exact ⟨⟨_, h1⟩, ⟨_, h2⟩⟩
  · obtain ⟨h1, h2⟩ := ReadImage_four ops data w h hlen hcap hw
    exact ⟨⟨_, h1⟩, ⟨_, h2⟩⟩

theorem ReadImage_error_or_image_witness :
    ReadImage (ieeeOps powRest0)
        (.ok ⟨[0x3F800000, 0x40000000, 0x40400000, 0x40800000, 0x40A00000], 1, 1, 5⟩)
      = some (none, some "unsupported number of channels: 5") ∧
    Pkg.ReadImage (ieeeOps powRest0)
        (.ok ⟨[0x3F800000, 0x40000000, 0x40400000, 0x40800000, 0x40A00000], 1, 1, 5⟩)
      = some (none, some "unsupported number of channels: 5") :=
  (ReadImage_error_or_image (ieeeOps powRest0)
    [0x3F800000, 0x40000000, 0x40400000, 0x40800000, 0x40A00000] 1 1 5
    (by decide) (by decide) (by decide)).1 (by decide) (by decide)

end Oiio
